import Mathlib

/-!
# Verification of xd-shell expansion, job control and builtins

Shallow embedding of the parts of the xd-shell sources
(src/xd_arg_expander.c, src/xd_jobs.c, src/xd_job.c, src/xd_shell.c,
src/xd_job_executor.c, src/xd_builtins.c) that the specification's claims
are about, together with proofs and refutations of those claims.

C strings are embedded as NUL-free lists of characters; reading past the
end of a list yields the NUL terminator, mirroring NUL-terminated access
in the C sources. OS interfaces (environment lookups, getpwnam, kill,
waitpid) are parameters of the embedded functions.
-/

/-- C-string character access: reading index i of a NUL-terminated string.
Indices at or beyond the end of the list yield the NUL character, exactly
as reading the terminator (or, equivalently, the first byte past the data)
does in the C sources. -/
def getC (s : List Char) (i : Nat) : Char :=
  s.getD i (Char.ofNat 0)

/-- The left-brace character, written by code to avoid brace literals. -/
def lbraceChr : Char := Char.ofNat 123

/-- The right-brace character. -/
def rbraceChr : Char := Char.ofNat 125

/-- Scanning state of the argument-expansion scanner
(enum xd_scan_state_t, xd_arg_expander.c:62-70). -/
inductive ScanState
  | NA
  | UQ
  | SQ
  | DQ
  | PRM
  | CMD
  | ESC
  deriving DecidableEq, Repr

/-- Top of the scan state stack, or NA when empty
(xd_ss_stack_top, xd_arg_expander.c:193-198). The stack is embedded as a
list whose head is the top element. -/
def xd_ss_stack_top (st : List ScanState) : ScanState :=
  st.headD ScanState.NA

/-- One advance step of the expansion scanner
(xd_ss_stack_update, xd_arg_expander.c:220-284). Returns the pair of the
C function's int return value (true when the state changed) and the scan
state stack after the call; `xd_ss_stack_pop` on an empty stack is a
no-op, matching `List.tail`. -/
def xd_ss_stack_update (arg mask : List Char) (idx : Nat)
    (st : List ScanState) : Bool × List ScanState :=
  let state := xd_ss_stack_top st
  let chr := getC arg idx
  let is_orig := getC mask idx = '1'
  if state = ScanState.ESC then (true, st.tail)
  else if ¬ is_orig then (false, st)
  else if chr = '\\' ∧ state ≠ ScanState.SQ then (true, ScanState.ESC :: st)
  else if chr = '\'' ∧ state ≠ ScanState.DQ then
    (if state = ScanState.SQ then (true, st.tail)
     else (true, ScanState.SQ :: st))
  else if chr = '\"' ∧ state ≠ ScanState.SQ then
    (if state = ScanState.DQ then (true, st.tail)
     else (true, ScanState.DQ :: st))
  else if chr = '$' ∧ state ≠ ScanState.SQ then
    (let next := getC arg (idx + 1)
     let is_next_orig := getC mask (idx + 1) = '1'
     if is_next_orig ∧ next = lbraceChr then (true, ScanState.PRM :: st)
     else if is_next_orig ∧ next = '(' then (true, ScanState.CMD :: st)
     else (false, st))
  else if chr = rbraceChr ∧ state = ScanState.PRM then (true, st.tail)
  else if chr = ')' ∧ state = ScanState.CMD then (true, st.tail)
  else (false, st)

/-- C2 counterexample: with the top of the stack in the ESCAPE state and a
mask byte of '0', the scanner step still pops the stack and reports a
transition — it does not return "no transition" with the stack unchanged
as the claim states. -/
theorem c2_esc_counterexample :
    ¬ (xd_ss_stack_update ['a'] ['0'] 0 [ScanState.ESC, ScanState.UQ]
        = (false, [ScanState.ESC, ScanState.UQ])) := by
  decide

/-- C2 (amended): at a mask-'0' byte the scanner step returns "no
transition" and leaves the stack unchanged whenever the top state is not
ESCAPE; when the top state is ESCAPE it pops the stack and reports a
transition regardless of the mask byte. -/
theorem c2_mask_zero_step (arg mask : List Char) (idx : Nat)
    (st : List ScanState) (hm : getC mask idx = '0') :
    xd_ss_stack_update arg mask idx st =
      if xd_ss_stack_top st = ScanState.ESC then (true, st.tail)
      else (false, st) := by
  by_cases htop : xd_ss_stack_top st = ScanState.ESC
  · simp [xd_ss_stack_update, htop]
  · simp [xd_ss_stack_update, htop, hm]

/-- C2 witness: evaluating the amended statement at a concrete input. -/
theorem c2_mask_zero_step_witness :
    getC ['0'] 0 = '0' ∧
      xd_ss_stack_update ['\''] ['0'] 0 [ScanState.UQ] =
        (false, [ScanState.UQ]) :=
  ⟨by decide, by
    have h := c2_mask_zero_step ['\''] ['0'] 0 [ScanState.UQ] (by decide)
    simpa using h⟩

/-- Membership in the word-splitting set XD_IFS " \t\n"
(xd_arg_expander.c:53). The NUL character is not in the set, so testing
IFS membership at the terminator is false, as in the C loop guards. -/
def isIFS (c : Char) : Bool :=
  c = ' ' || c = '\t' || c = '\n'

/-- Slice text[a..b) of a C string, as produced by temporarily
NUL-terminating at index b and taking the string starting at index a. -/
def cSlice (l : List Char) (a b : Nat) : List Char :=
  (l.drop a).take (b - a)

/-- The inner skip loop of word splitting
(xd_arg_expander.c:845-847): advance past consecutive IFS characters.
The loop guard `arg[end] != NUL && strchr(XD_IFS, arg[end])` is
equivalent to `isIFS (getC arg e)` because NUL is not an IFS character.
Fuel bounds the iteration count; the entry point supplies enough fuel
for any NUL-free string. -/
def wsSkipIFS (arg : List Char) (e : Nat) : Nat → Nat
  | 0 => e
  | f + 1 => if isIFS (getC arg e) then wsSkipIFS arg (e + 1) f else e

/-- The main loop of word splitting (xd_arg_expander.c:825-860),
accumulating the emitted words and their mask slices. Each iteration
either terminates (at the NUL terminator, i.e. at the end of a NUL-free
list) or advances end_idx by at least one, so the fuel supplied by
`xd_word_splitting` is never exhausted. -/
def wsLoop (arg mask : List Char) :
    Nat → Nat → Nat → List ScanState → List (List Char) →
    List (List Char) → List (List Char) × List (List Char)
  | 0, _, _, _, accW, accM => (accW, accM)
  | f + 1, start, e, st, accW, accM =>
    if getC arg e = Char.ofNat 0 then
      if start ≠ e then
        (accW ++ [arg.drop start], accM ++ [mask.drop start])
      else (accW, accM)
    else
      let state := xd_ss_stack_top st
      if isIFS (getC arg e) ∧ state ≠ ScanState.SQ ∧
          state ≠ ScanState.DQ then
        let accW2 := accW ++ [cSlice arg start e]
        let accM2 := accM ++ [cSlice mask start e]
        let e2 := wsSkipIFS arg (e + 1) (arg.length + 1)
        wsLoop arg mask f e2 e2
          (xd_ss_stack_update arg mask e2 st).2 accW2 accM2
      else
        wsLoop arg mask f start (e + 1)
          (xd_ss_stack_update arg mask (e + 1) st).2 accW accM

/-- Word splitting, pass 4 of the argument expander
(xd_word_splitting, xd_arg_expander.c:806-864). Returns the list of
words and the list of their originality-mask slices. The scan starts
with a cleared stack holding the unquoted state and an initial scanner
step at index 0. -/
def xd_word_splitting (arg mask : List Char) :
    List (List Char) × List (List Char) :=
  wsLoop arg mask (arg.length + 1) 0 0
    (xd_ss_stack_update arg mask 0 [ScanState.UQ]).2 [] []

/-- C1 counterexample: the spec's own §4.7 example. The text
"one\ntwo" whose newline carries mask byte '0' (it was produced by
command substitution) IS split at that newline: the result is the two
words "one" and "two", not the single word "one\ntwo" the claim
requires. The split condition (xd_arg_expander.c:829-830) tests only
IFS membership and the quote state, never the mask. -/
theorem c1_mask_zero_splits_counterexample :
    (xd_word_splitting ['o', 'n', 'e', '\n', 't', 'w', 'o']
        ['1', '1', '1', '0', '1', '1', '1']).1 =
      [['o', 'n', 'e'], ['t', 'w', 'o']] ∧
    (xd_word_splitting ['o', 'n', 'e', '\n', 't', 'w', 'o']
        ['1', '1', '1', '0', '1', '1', '1']).1 ≠
      [['o', 'n', 'e', '\n', 't', 'w', 'o']] := by
  constructor
  · decide
  · decide

/-- At a character that is none of the scanner's special characters, the
scanner step reports no transition and leaves the stack unchanged
whenever the top state is not ESCAPE, whatever the mask says. -/
lemma ss_update_of_not_special (arg mask : List Char) (idx : Nat)
    (st : List ScanState) (htop : xd_ss_stack_top st ≠ ScanState.ESC)
    (h1 : getC arg idx ≠ '\\') (h2 : getC arg idx ≠ '\'')
    (h3 : getC arg idx ≠ '\"') (h4 : getC arg idx ≠ '$')
    (h5 : getC arg idx ≠ rbraceChr) (h6 : getC arg idx ≠ ')') :
    xd_ss_stack_update arg mask idx st = (false, st) := by
  by_cases ho : getC mask idx = '1' <;>
    simp [xd_ss_stack_update, htop, ho, h1, h2, h3, h4, h5, h6]

/-- The scanner step reads the mask only at the current index and — when
the current character is a dollar sign — at the next index, and only if
that next character is a brace or parenthesis; two masks that agree at
every non-IFS position therefore drive identical steps. -/
lemma ss_update_mask_agree (arg mask mask' : List Char) (idx : Nat)
    (st : List ScanState)
    (h : ∀ i, isIFS (getC arg i) = false → getC mask i = getC mask' i) :
    xd_ss_stack_update arg mask idx st =
      xd_ss_stack_update arg mask' idx st := by
  by_cases htop : xd_ss_stack_top st = ScanState.ESC
  · simp [xd_ss_stack_update, htop]
  · by_cases hifs : isIFS (getC arg idx) = true
    · have hcases : getC arg idx = ' ' ∨ getC arg idx = '\t' ∨
          getC arg idx = '\n' := by
        have h2 := hifs
        simp [isIFS] at h2
        tauto
      rcases hcases with hc | hc | hc <;>
        rw [ss_update_of_not_special arg mask idx st htop
              (by rw [hc]; decide) (by rw [hc]; decide) (by rw [hc]; decide)
              (by rw [hc]; decide) (by rw [hc]; decide) (by rw [hc]; decide),
           ss_update_of_not_special arg mask' idx st htop
              (by rw [hc]; decide) (by rw [hc]; decide) (by rw [hc]; decide)
              (by rw [hc]; decide) (by rw [hc]; decide) (by rw [hc]; decide)]
    · have hidx : getC mask idx = getC mask' idx := by
        exact h idx (by simpa using hifs)
      by_cases hd : getC arg idx = '$'
      · by_cases hl : getC arg (idx + 1) = lbraceChr
        · have hnx : getC mask (idx + 1) = getC mask' (idx + 1) := by
            refine h (idx + 1) ?_
            rw [hl]; decide
          simp [xd_ss_stack_update, hidx, hnx]
        · by_cases hp : getC arg (idx + 1) = '('
          · have hnx : getC mask (idx + 1) = getC mask' (idx + 1) := by
              refine h (idx + 1) ?_
              rw [hp]; decide
            simp [xd_ss_stack_update, hidx, hnx]
          · simp [xd_ss_stack_update, hidx, hd, hl, hp]
      · simp [xd_ss_stack_update, hidx, hd]

/-- The word component of the splitting loop is the same for any two
masks that agree at every non-IFS position of the text. -/
lemma wsLoop_fst_mask_agree (arg mask mask' : List Char)
    (h : ∀ i, isIFS (getC arg i) = false → getC mask i = getC mask' i) :
    ∀ (fuel start e : Nat) (st : List ScanState)
      (accW accM accM' : List (List Char)),
      (wsLoop arg mask fuel start e st accW accM).1 =
        (wsLoop arg mask' fuel start e st accW accM').1 := by
  intro fuel
  induction fuel with
  | zero =>
    intro start e st accW accM accM'
    simp [wsLoop]
  | succ f ih =>
    intro start e st accW accM accM'
    simp only [wsLoop]
    split_ifs with h0 hse hb
    · rfl
    · rfl
    · rw [ss_update_mask_agree arg mask mask' _ _ h]
      exact ih _ _ _ _ _ _
    · rw [ss_update_mask_agree arg mask mask' _ _ h]
      exact ih _ _ _ _ _ _

/-- C1 (amended): word splitting splits at every IFS byte at which the
scanner is not single- or double-quoted, regardless of the mask byte at
that position — the mask contributes nothing to the choice of split
points. Formally, the emitted words are identical for any two masks that
agree at the non-IFS positions (so the mask bytes carried by IFS bytes,
'0' or '1', never matter). -/
theorem c1_split_independent_of_mask (arg mask mask' : List Char)
    (h : ∀ i, isIFS (getC arg i) = false → getC mask i = getC mask' i) :
    (xd_word_splitting arg mask).1 = (xd_word_splitting arg mask').1 := by
  unfold xd_word_splitting
  rw [ss_update_mask_agree arg mask mask' 0 [ScanState.UQ] h]
  exact wsLoop_fst_mask_agree arg mask mask' h _ _ _ _ _ _ _

/-- C1 witness: the amended statement evaluated at a concrete text whose
newline carries mask '0' in one mask and '1' in the other. -/
theorem c1_split_independent_of_mask_witness :
    (∀ i, isIFS (getC ['a', '\n', 'b'] i) = false →
        getC ['1', '0', '1'] i = getC ['1', '1', '1'] i) ∧
      (xd_word_splitting ['a', '\n', 'b'] ['1', '0', '1']).1 =
        (xd_word_splitting ['a', '\n', 'b'] ['1', '1', '1']).1 := by
  have h : ∀ i, isIFS (getC ['a', '\n', 'b'] i) = false →
      getC ['1', '0', '1'] i = getC ['1', '1', '1'] i := by
    intro i hi
    match i with
    | 0 => rfl
    | 1 => exact absurd hi (by decide)
    | 2 => rfl
    | n + 3 => rfl
  exact ⟨h, c1_split_independent_of_mask _ _ _ h⟩

/-- Environment oracle for tilde expansion: the variable and password
database lookups made by xd_tidle_expansion (xd_arg_expander.c:486-514).
home, pwd, oldpwd model xd_vars_get("HOME"/"PWD"/"OLDPWD"); uid_home
models the getpwuid fallback; pw_dir models getpwnam on a user name. -/
structure TildeEnv where
  home : Option (List Char)
  uid_home : Option (List Char)
  pwd : Option (List Char)
  oldpwd : Option (List Char)
  pw_dir : List Char → Option (List Char)

/-- The tilde-prefix of an argument that starts with a tilde: the
characters after the tilde and before the first slash
(xd_arg_expander.c:471-483). -/
def tildePref (arg : List Char) : List Char :=
  arg.tail.takeWhile (fun c => c ≠ '/')

/-- The suffix of a tilde argument: from the first slash after the tilde
(inclusive) to the end, or empty when there is no slash
(xd_arg_expander.c:475-483). -/
def tildeSuffixStr (arg : List Char) : List Char :=
  arg.tail.dropWhile (fun c => c ≠ '/')

/-- Resolution of a tilde-prefix to a directory, mirroring the prefix
classification of xd_tidle_expansion (xd_arg_expander.c:486-514):
an empty prefix resolves through HOME then the passwd entry of the
current user; "+" through PWD; "-" through OLDPWD; anything else through
getpwnam. -/
def tildeResolve (env : TildeEnv) (pref : List Char) : Option (List Char) :=
  if pref = [] then
    match env.home with
    | some h => some h
    | none => env.uid_home
  else if pref = ['+'] then env.pwd
  else if pref = ['-'] then env.oldpwd
  else env.pw_dir pref

/-- Tilde expansion, pass 1 of the argument expander
(xd_tidle_expansion, xd_arg_expander.c:462-540). Returns the expanded
text and the updated originality mask. When the resolved prefix has
length p and the suffix length s, the new mask is p '0' bytes followed
by the first s bytes of the incoming mask (the C loop copies
orig_mask[0..s)). Arguments not starting with a tilde and prefixes that
fail to resolve pass both text and mask through unchanged. -/
def xd_tidle_expansion (env : TildeEnv) (arg mask : List Char) :
    List Char × List Char :=
  if getC arg 0 ≠ '~' then (arg, mask)
  else
    match tildeResolve env (tildePref arg) with
    | none => (arg, mask)
    | some p =>
      (p ++ tildeSuffixStr arg,
       List.replicate p.length '0' ++ mask.take (tildeSuffixStr arg).length)

/-- C9: tilde expansion at pass 1, where the incoming mask is the
all-'1' mask built by xd_arg_expander (xd_arg_expander.c:1049-1052).
When the leading tilde prefix resolves to a directory P, the output text
is P followed by the unchanged suffix and the output mask is '0'
repeated |P| times followed by the original mask bytes of the suffix
positions; when the argument does not start with a tilde or the prefix
cannot be resolved, text and mask pass through unchanged. -/
theorem c9_tidle_expansion_spec (env : TildeEnv) (arg mask : List Char)
    (hmask : mask = List.replicate arg.length '1') :
    (∀ p, getC arg 0 = '~' →
      tildeResolve env (tildePref arg) = some p →
      xd_tidle_expansion env arg mask =
        (p ++ tildeSuffixStr arg,
         List.replicate p.length '0' ++
           mask.drop (1 + (tildePref arg).length))) ∧
    ((getC arg 0 ≠ '~' ∨ tildeResolve env (tildePref arg) = none) →
      xd_tidle_expansion env arg mask = (arg, mask)) := by
  constructor
  · intro p h0 hres
    have hne : arg ≠ [] := by
      intro he
      rw [he] at h0
      exact absurd h0 (by decide)
    have hpos : 1 ≤ arg.length := List.length_pos.mpr hne
    have hlen : (tildePref arg).length + (tildeSuffixStr arg).length =
        arg.tail.length := by
      rw [tildePref, tildeSuffixStr, ← List.length_append,
        List.takeWhile_append_dropWhile]
    have htl : arg.tail.length = arg.length - 1 := List.length_tail arg
    have hmain : mask.take (tildeSuffixStr arg).length =
        mask.drop (1 + (tildePref arg).length) := by
      subst hmask
      rw [List.take_replicate, List.drop_replicate]
      congr 1
      omega
    simp only [xd_tidle_expansion, h0, hres]
    rw [if_neg (by simp [h0]), hmain]
  · intro hcase
    rcases hcase with h0 | hres
    · simp [xd_tidle_expansion, h0]
    · by_cases h0 : getC arg 0 = '~'
      · simp [xd_tidle_expansion, h0, hres]
      · simp [xd_tidle_expansion, h0]

/-- C9 witness: the tilde case and the pass-through case evaluated at
concrete inputs. -/
theorem c9_tidle_expansion_spec_witness :
    (getC ['~', '/', 'x'] 0 = '~' ∧
      tildeResolve
          ⟨some ['/', 'h'], none, none, none, fun _ => none⟩
          (tildePref ['~', '/', 'x']) = some ['/', 'h'] ∧
      xd_tidle_expansion
          ⟨some ['/', 'h'], none, none, none, fun _ => none⟩
          ['~', '/', 'x'] (List.replicate 3 '1') =
        (['/', 'h'] ++ tildeSuffixStr ['~', '/', 'x'],
         List.replicate 2 '0' ++
           (List.replicate 3 '1').drop
             (1 + (tildePref ['~', '/', 'x']).length))) ∧
    xd_tidle_expansion
        ⟨none, none, none, none, fun _ => none⟩
        ['~', 'u'] (List.replicate 2 '1') =
      (['~', 'u'], List.replicate 2 '1') := by
  refine ⟨⟨by decide, rfl, ?_⟩, ?_⟩
  · exact (c9_tidle_expansion_spec
      ⟨some ['/', 'h'], none, none, none, fun _ => none⟩
      ['~', '/', 'x'] (List.replicate 3 '1') rfl).1 ['/', 'h']
      (by decide) rfl
  · exact (c9_tidle_expansion_spec
      ⟨none, none, none, none, fun _ => none⟩
      ['~', 'u'] (List.replicate 2 '1') rfl).2 (Or.inr rfl)

/-- Exit code when a command cannot be executed
(XD_SH_EXIT_CODE_CANNOT_EXECUTE, xd_shell.h:44). -/
def XD_SH_EXIT_CODE_CANNOT_EXECUTE : Nat := 126

/-- Exit code when a command was not found
(XD_SH_EXIT_CODE_NOT_FOUND, xd_shell.h:49). -/
def XD_SH_EXIT_CODE_NOT_FOUND : Nat := 127

/-- errno value ENOENT (no such file or directory). -/
def errnoENOENT : Nat := 2

/-- errno value EACCES (permission denied). -/
def errnoEACCES : Nat := 13

/-- errno value ENOEXEC (exec format error). -/
def errnoENOEXEC : Nat := 8

/-- Kind of diagnostic printed on exec failure
(xd_job_executor.c:554, 563, 566, 574). -/
inductive ExecMsg
  | isDirectory
  | commandNotFound
  | errnoMessage
  deriving DecidableEq, Repr

/-- The exec-failure tail of xd_execute_command
(xd_job_executor.c:549-578), reached after execve returned.
exec_path_is_dir models `stat(exec_path) == 0 && S_ISDIR`;
exec_has_slash is whether the path handed to execve contains a slash;
err is the errno left by execve. Returns the code the child exits with
and the diagnostic kind it prints. -/
def xd_execute_command_exec_fail (exec_path_is_dir : Bool)
    (exec_has_slash : Bool) (err : Nat) : Nat × ExecMsg :=
  if exec_path_is_dir then
    (XD_SH_EXIT_CODE_CANNOT_EXECUTE, ExecMsg.isDirectory)
  else if err = errnoENOENT then
    (XD_SH_EXIT_CODE_NOT_FOUND,
     if exec_has_slash = false then ExecMsg.commandNotFound
     else ExecMsg.errnoMessage)
  else (XD_SH_EXIT_CODE_CANNOT_EXECUTE, ExecMsg.errnoMessage)

/-- C3 counterexample: an exec failure that is neither "is a directory"
nor ENOENT nor a permission error — here ENOEXEC, an exec format
error — makes the child exit with 126, not with 1 as the claim's
"1 for every other exec failure" requires. -/
theorem c3_other_failure_counterexample :
    (xd_execute_command_exec_fail false false errnoENOEXEC).1 = 126 ∧
      (xd_execute_command_exec_fail false false errnoENOEXEC).1 ≠ 1 := by
  constructor
  · decide
  · decide

/-- C3 (amended): when exec of a child command fails, the child exits
with 127 exactly when the target is not a directory and errno is ENOENT
(command not found / no such file), and with 126 in every other case —
directories, permission errors (EACCES) and all remaining exec errors
alike; the exit code is never 1. -/
theorem c3_exec_fail_codes (d s : Bool) (err : Nat) :
    ((xd_execute_command_exec_fail d s err).1 = 127 ↔
      d = false ∧ err = errnoENOENT) ∧
    ((xd_execute_command_exec_fail d s err).1 = 126 ↔
      ¬ (d = false ∧ err = errnoENOENT)) ∧
    (xd_execute_command_exec_fail d s err).1 ≠ 1 := by
  cases d <;> by_cases he : err = errnoENOENT <;>
    simp [xd_execute_command_exec_fail, he, XD_SH_EXIT_CODE_NOT_FOUND,
      XD_SH_EXIT_CODE_CANNOT_EXECUTE]

/-- A wait status as classified by the POSIX macros. The value -1 that
xd_command_create stores initially (xd_command.c:44) satisfies none of
WIFEXITED/WIFSIGNALED/WIFSTOPPED/WIFCONTINUED and is embedded as
`initial`; statuses returned by waitpid satisfy exactly one of the four
predicates. -/
inductive WStatus
  | initial
  | exited (code : Nat)
  | signaled (sig : Nat)
  | stopped (sig : Nat)
  | continuedW
  deriving DecidableEq, Repr

/-- WIFEXITED. -/
def wifexited : WStatus → Bool
  | WStatus.exited _ => true
  | _ => false

/-- WIFSIGNALED. -/
def wifsignaled : WStatus → Bool
  | WStatus.signaled _ => true
  | _ => false

/-- WIFSTOPPED. -/
def wifstopped : WStatus → Bool
  | WStatus.stopped _ => true
  | _ => false

/-- WIFCONTINUED. -/
def wifcontinued : WStatus → Bool
  | WStatus.continuedW => true
  | _ => false

/-- A status after which the kernel has reaped the child: exited or
signalled. waitpid can never report a further event for such a pid. -/
def reapedStatus (w : WStatus) : Bool :=
  wifexited w || wifsignaled w

/-- A command of a pipeline as the Job Table sees it: the recorded pid
(0 until the executor forks it, xd_command.c:43, xd_job_executor.c:672)
and the last observed wait status. -/
structure MCmd where
  pid : Int
  wait_status : WStatus
  deriving DecidableEq, Repr

/-- A command that the executor has forked and the kernel has not yet
reaped; unreaped_count counts exactly these. -/
def cmdUnreaped (c : MCmd) : Bool :=
  decide (c.pid ≠ 0) && ! reapedStatus c.wait_status

/-- The job fields involved in the counter bookkeeping
(struct xd_job_t, xd_job.h:31-41). -/
structure JobSt where
  cmds : List MCmd
  stopped_count : Int
  unreaped_count : Int
  wait_status : WStatus
  deriving DecidableEq, Repr

/-- A job as xd_job_create initializes it (xd_job.c:120-127): no
commands, zero counters, wait status -1. -/
def jobInit : JobSt :=
  { cmds := [], stopped_count := 0, unreaped_count := 0,
    wait_status := WStatus.initial }

/-- The counter and per-command bookkeeping shared by the synchronous
wait loop (xd_jobs.c:366-385) and the SIGCHLD handler
(xd_shell.c:392-414) when status st is observed for command i:
was_stopped is read from the command's prior status, the command's
status is overwritten, and stopped_count/unreaped_count are updated by
the WIFCONTINUED/WIFSTOPPED/WIFEXITED-or-WIFSIGNALED cases. -/
def observeCmd (j : JobSt) (i : Nat) (st : WStatus) : JobSt :=
  match j.cmds.get? i with
  | none => j
  | some c =>
    let was := wifstopped c.wait_status
    let cmds2 := j.cmds.set i { c with wait_status := st }
    let sc :=
      if wifcontinued st then
        (if was then j.stopped_count - 1 else j.stopped_count)
      else if wifstopped st then
        (if was then j.stopped_count else j.stopped_count + 1)
      else if wifexited st || wifsignaled st then
        (if was then j.stopped_count - 1 else j.stopped_count)
      else j.stopped_count
    let uc :=
      if wifexited st || wifsignaled st then j.unreaped_count - 1
      else j.unreaped_count
    { j with cmds := cmds2, stopped_count := sc, unreaped_count := uc }

/-- An observation made by the synchronous wait loop
(xd_jobs.c:366-385): besides the shared bookkeeping, the Job's wait
status is set to the observed status unconditionally (line 368). -/
def syncObserve (j : JobSt) (i : Nat) (st : WStatus) : JobSt :=
  { observeCmd j i st with wait_status := st }

/-- An observation made by the SIGCHLD reaper (xd_shell.c:392-414):
besides the shared bookkeeping, the Job's wait status is set only when
the observed command is the last command of the pipeline
(xd_shell.c:395-397). -/
def handlerObserve (j : JobSt) (i : Nat) (st : WStatus) : JobSt :=
  let j2 := observeCmd j i st
  if i + 1 = j.cmds.length then { j2 with wait_status := st } else j2

/-- The events that build and update a job's counters: adding a command
to the pipeline (xd_job_add_command, xd_job.c:144-163), the executor
recording a successful fork (xd_job_executor.c:700-701), and a wait
observation by the synchronous loop or the reaper. Observations carry
the kernel-side guards: waitpid reports only pids of forked, not yet
reaped children, and never reports the initial pseudo-status. -/
inductive JobStep : JobSt → JobSt → Prop
  | add_command (j : JobSt) :
      JobStep j { j with
        cmds := j.cmds ++ [{ pid := 0, wait_status := WStatus.initial }] }
  | fork_recorded (j : JobSt) (i : Nat) (p : Int) (c : MCmd)
      (hc : j.cmds.get? i = some c) (hpid : c.pid = 0)
      (hst : c.wait_status = WStatus.initial) (hp : p ≠ 0) :
      JobStep j { j with
        cmds := j.cmds.set i { c with pid := p },
        unreaped_count := j.unreaped_count + 1 }
  | observe_sync (j : JobSt) (i : Nat) (st : WStatus) (c : MCmd)
      (hc : j.cmds.get? i = some c) (hpid : c.pid ≠ 0)
      (hnr : reapedStatus c.wait_status = false)
      (hst : st ≠ WStatus.initial) :
      JobStep j (syncObserve j i st)
  | observe_handler (j : JobSt) (i : Nat) (st : WStatus) (c : MCmd)
      (hc : j.cmds.get? i = some c) (hpid : c.pid ≠ 0)
      (hnr : reapedStatus c.wait_status = false)
      (hst : st ≠ WStatus.initial) :
      JobStep j (handlerObserve j i st)

/-- Job states reachable from creation through any interleaving of the
events above. -/
inductive JobReachable : JobSt → Prop
  | init : JobReachable jobInit
  | step {j j' : JobSt} : JobReachable j → JobStep j j' → JobReachable j'

/-- Replacing element i of a list changes a countP tally by removing the
old element's contribution and adding the new one's. -/
lemma countP_set_add {α : Type} (p : α → Bool) :
    ∀ (l : List α) (i : Nat) (c x : α), l.get? i = some c →
      (l.set i x).countP p + (if p c then 1 else 0) =
        l.countP p + (if p x then 1 else 0) := by
  intro l
  induction l with
  | nil => intro i c x h; simp at h
  | cons a t ih =>
    intro i c x h
    cases i with
    | zero =>
      simp only [List.get?] at h
      obtain rfl : a = c := by injection h
      simp [List.countP_cons]
      omega
    | succ n =>
      simp only [List.get?] at h
      have := ih n c x h
      simp [List.countP_cons]
      omega

/-- The inductive invariant behind C5: the stopped counter tallies the
commands whose last observed status is a stop, the unreaped counter
tallies the forked-but-unreaped commands, and any command with an
observed status has been forked. -/
def JobInv (j : JobSt) : Prop :=
  j.stopped_count =
    (j.cmds.countP (fun c => wifstopped c.wait_status) : Int) ∧
  j.unreaped_count = (j.cmds.countP cmdUnreaped : Int) ∧
  ∀ c ∈ j.cmds, c.wait_status ≠ WStatus.initial → c.pid ≠ 0


/-- The shared observation bookkeeping preserves the invariant. -/
lemma observeCmd_inv (j : JobSt) (i : Nat) (st : WStatus) (c : MCmd)
    (hc : j.cmds.get? i = some c) (hpid : c.pid ≠ 0)
    (hnr : reapedStatus c.wait_status = false)
    (hst : st ≠ WStatus.initial) (hinv : JobInv j) :
    JobInv (observeCmd j i st) := by
  obtain ⟨h1, h2, h3⟩ := hinv
  have hsetS : (j.cmds.set i { c with wait_status := st }).countP
        (fun c => wifstopped c.wait_status) +
        (if wifstopped c.wait_status = true then 1 else 0) =
      j.cmds.countP (fun c => wifstopped c.wait_status) +
        (if wifstopped st = true then 1 else 0) := by
    simpa using countP_set_add (fun c => wifstopped c.wait_status)
      j.cmds i c { c with wait_status := st } hc
  have hsetU : (j.cmds.set i { c with wait_status := st }).countP
        cmdUnreaped + (if cmdUnreaped c = true then 1 else 0) =
      j.cmds.countP cmdUnreaped +
        (if cmdUnreaped { c with wait_status := st } = true
          then 1 else 0) := by
    simpa using countP_set_add cmdUnreaped
      j.cmds i c { c with wait_status := st } hc
  have hcu : cmdUnreaped c = true := by
    simp [cmdUnreaped, hpid, hnr]
  have hxu : cmdUnreaped { c with wait_status := st } =
      ! reapedStatus st := by
    simp [cmdUnreaped, hpid]
  rw [hcu, hxu] at hsetU
  refine ⟨?_, ?_, ?_⟩
  · simp only [observeCmd, hc]
    cases st with
    | initial => exact absurd rfl hst
    | exited code =>
      have e1 : wifcontinued (WStatus.exited code) = false := rfl
      have e2 : wifstopped (WStatus.exited code) = false := rfl
      have e3 : wifexited (WStatus.exited code) = true := rfl
      rw [e2] at hsetS
      by_cases hw : wifstopped c.wait_status = true <;>
        simp [e1, e2, e3, hw] at hsetS ⊢ <;> omega
    | signaled sig =>
      have e1 : wifcontinued (WStatus.signaled sig) = false := rfl
      have e2 : wifstopped (WStatus.signaled sig) = false := rfl
      have e3 : wifexited (WStatus.signaled sig) = false := rfl
      have e4 : wifsignaled (WStatus.signaled sig) = true := rfl
      rw [e2] at hsetS
      by_cases hw : wifstopped c.wait_status = true <;>
        simp [e1, e2, e3, e4, hw] at hsetS ⊢ <;> omega
    | stopped sig =>
      have e1 : wifcontinued (WStatus.stopped sig) = false := rfl
      have e2 : wifstopped (WStatus.stopped sig) = true := rfl
      rw [e2] at hsetS
      by_cases hw : wifstopped c.wait_status = true <;>
        simp [e1, e2, hw] at hsetS ⊢ <;> omega
    | continuedW =>
      have e1 : wifcontinued WStatus.continuedW = true := rfl
      have e2 : wifstopped WStatus.continuedW = false := rfl
      rw [e2] at hsetS
      by_cases hw : wifstopped c.wait_status = true <;>
        simp [e1, e2, hw] at hsetS ⊢ <;> omega
  · simp only [observeCmd, hc]
    cases st with
    | initial => exact absurd rfl hst
    | exited code =>
      have e1 : reapedStatus (WStatus.exited code) = true := rfl
      have e2 : wifexited (WStatus.exited code) = true := rfl
      rw [e1] at hsetU
      simp [e2] at hsetU ⊢
      omega
    | signaled sig =>
      have e1 : reapedStatus (WStatus.signaled sig) = true := rfl
      have e2 : wifexited (WStatus.signaled sig) = false := rfl
      have e3 : wifsignaled (WStatus.signaled sig) = true := rfl
      rw [e1] at hsetU
      simp [e2, e3] at hsetU ⊢
      omega
    | stopped sig =>
      have e1 : reapedStatus (WStatus.stopped sig) = false := rfl
      have e2 : wifexited (WStatus.stopped sig) = false := rfl
      have e3 : wifsignaled (WStatus.stopped sig) = false := rfl
      rw [e1] at hsetU
      simp [e2, e3] at hsetU ⊢
      omega
    | continuedW =>
      have e1 : reapedStatus WStatus.continuedW = false := rfl
      have e2 : wifexited WStatus.continuedW = false := rfl
      have e3 : wifsignaled WStatus.continuedW = false := rfl
      rw [e1] at hsetU
      simp [e2, e3] at hsetU ⊢
      omega
  · simp only [observeCmd, hc]
    intro c2 hmem hne
    rcases List.mem_or_eq_of_mem_set hmem with hold | hnew
    · exact h3 c2 hold hne
    · rw [hnew]
      exact hpid

/-- Every event of the job lifecycle preserves the invariant. -/
lemma jobStep_inv {j j' : JobSt} (hs : JobStep j j') (hinv : JobInv j) :
    JobInv j' := by
  obtain ⟨h1, h2, h3⟩ := hinv
  cases hs with
  | add_command =>
    refine ⟨?_, ?_, ?_⟩
    · simp only []
      rw [List.countP_append]
      have e1 : (List.countP (fun c : MCmd => wifstopped c.wait_status)
          [{ pid := 0, wait_status := WStatus.initial }] : Nat) = 0 := rfl
      rw [e1]
      simpa using h1
    · simp only []
      rw [List.countP_append]
      have e1 : (List.countP cmdUnreaped
          ([{ pid := 0, wait_status := WStatus.initial }] : List MCmd))
            = 0 := rfl
      rw [e1]
      simpa using h2
    · intro c hmem hne
      simp only [] at hmem
      rcases List.mem_append.mp hmem with hold | hnew
      · exact h3 c hold hne
      · simp at hnew
        rw [hnew] at hne
        exact absurd rfl hne
  | fork_recorded i p c hc hpid hst hp =>
    have hsetS : (j.cmds.set i { c with pid := p }).countP
          (fun c => wifstopped c.wait_status) +
          (if wifstopped c.wait_status = true then 1 else 0) =
        j.cmds.countP (fun c => wifstopped c.wait_status) +
          (if wifstopped c.wait_status = true then 1 else 0) := by
      simpa using countP_set_add (fun c => wifstopped c.wait_status)
        j.cmds i c { c with pid := p } hc
    have hsetU : (j.cmds.set i { c with pid := p }).countP cmdUnreaped +
          (if cmdUnreaped c = true then 1 else 0) =
        j.cmds.countP cmdUnreaped +
          (if cmdUnreaped { c with pid := p } = true then 1 else 0) := by
      simpa using countP_set_add cmdUnreaped
        j.cmds i c { c with pid := p } hc
    have hcu : cmdUnreaped c = false := by
      simp [cmdUnreaped, hpid]
    have hxu : cmdUnreaped { c with pid := p } = true := by
      simp [cmdUnreaped, hp, hst, reapedStatus, wifexited, wifsignaled]
    rw [hcu, hxu] at hsetU
    refine ⟨?_, ?_, ?_⟩
    · simp only []
      omega
    · simp only []
      simp at hsetU
      omega
    · intro c2 hmem hne
      simp only [] at hmem
      rcases List.mem_or_eq_of_mem_set hmem with hold | hnew
      · exact h3 c2 hold hne
      · rw [hnew]
        exact hp
  | observe_sync i st c hc hpid hnr hst =>
    have hobs := observeCmd_inv j i st c hc hpid hnr hst ⟨h1, h2, h3⟩
    exact ⟨hobs.1, hobs.2.1, hobs.2.2⟩
  | observe_handler i st c hc hpid hnr hst =>
    have hobs := observeCmd_inv j i st c hc hpid hnr hst ⟨h1, h2, h3⟩
    by_cases hl : i + 1 = j.cmds.length
    · simp only [handlerObserve, hl, if_pos]
      exact ⟨hobs.1, hobs.2.1, hobs.2.2⟩
    · simp only [handlerObserve]
      rw [if_neg hl]
      exact hobs

/-- C5: for every Job at every moment of its lifecycle — after creation,
after each fork recorded by the executor, and after every counter update
performed by the synchronous wait loop or the SIGCHLD reaper —
0 ≤ stopped_count ≤ unreaped_count ≤ command_count. -/
theorem c5_job_counter_invariant (j : JobSt) (h : JobReachable j) :
    0 ≤ j.stopped_count ∧ j.stopped_count ≤ j.unreaped_count ∧
      j.unreaped_count ≤ (j.cmds.length : Int) := by
  have hinv : JobInv j := by
    induction h with
    | init =>
      refine ⟨by simp [jobInit], by simp [jobInit], ?_⟩
      intro c hmem hne
      simp [jobInit] at hmem
    | step hr hs ih => exact jobStep_inv hs ih
  obtain ⟨h1, h2, h3⟩ := hinv
  have hmono : j.cmds.countP (fun c => wifstopped c.wait_status) ≤
      j.cmds.countP cmdUnreaped := by
    apply List.countP_mono_left
    intro c hmem hw
    have hne : c.wait_status ≠ WStatus.initial := by
      intro he
      rw [he] at hw
      exact absurd hw (by decide)
    have hp := h3 c hmem hne
    have hnr : reapedStatus c.wait_status = false := by
      cases hcw : c.wait_status with
      | initial => rfl
      | exited code => rw [hcw] at hw; simp [wifstopped] at hw
      | signaled sig => rw [hcw] at hw; simp [wifstopped] at hw
      | stopped sig => rfl
      | continuedW => rfl
    simp [cmdUnreaped, hp, hnr]
  have hlen : j.cmds.countP cmdUnreaped ≤ j.cmds.length :=
    @List.countP_le_length MCmd cmdUnreaped j.cmds
  omega

/-- C5 witness: the invariant evaluated at the job state reached by
creating a job, adding one command and recording its fork as pid 7. -/
theorem c5_job_counter_invariant_witness :
    0 ≤ (⟨[⟨7, WStatus.initial⟩], 0, 1, WStatus.initial⟩ : JobSt).stopped_count ∧
      (⟨[⟨7, WStatus.initial⟩], 0, 1, WStatus.initial⟩ : JobSt).stopped_count ≤
        (⟨[⟨7, WStatus.initial⟩], 0, 1, WStatus.initial⟩ : JobSt).unreaped_count ∧
      (⟨[⟨7, WStatus.initial⟩], 0, 1, WStatus.initial⟩ : JobSt).unreaped_count ≤
        ((⟨[⟨7, WStatus.initial⟩], 0, 1, WStatus.initial⟩ : JobSt).cmds.length : Int) :=
  c5_job_counter_invariant _
    (JobReachable.step
      (JobReachable.step JobReachable.init (JobStep.add_command jobInit))
      (JobStep.fork_recorded _ 0 7 ⟨0, WStatus.initial⟩ rfl rfl rfl
        (by decide)))

/-- C4 counterexample: a two-command pipeline in which the SIGCHLD
reaper observes an exit of the FIRST command. The reaper updates the
Job's wait status only when the observed command is the last of the
pipeline (xd_shell.c:395-397), so here the Job's wait status stays at
its initial value instead of mirroring the observed status. -/
theorem c4_handler_counterexample :
    (handlerObserve
        ⟨[⟨5, WStatus.initial⟩, ⟨6, WStatus.initial⟩], 0, 2,
          WStatus.initial⟩
        0 (WStatus.exited 0)).wait_status ≠ WStatus.exited 0 := by
  decide

/-- C4 (amended): after an observation by the synchronous wait loop the
Job's wait status always equals the observed Command status; after an
observation by the SIGCHLD reaper it equals the observed status exactly
when the observed Command is the last of the pipeline, and is left
unchanged otherwise. -/
theorem c4_wait_status_mirroring (j : JobSt) (i : Nat) (st : WStatus) :
    (syncObserve j i st).wait_status = st ∧
    (i + 1 = j.cmds.length → (handlerObserve j i st).wait_status = st) ∧
    (i + 1 ≠ j.cmds.length →
      (handlerObserve j i st).wait_status = j.wait_status) := by
  refine ⟨rfl, ?_, ?_⟩
  · intro hl
    simp [handlerObserve, hl]
  · intro hl
    simp only [handlerObserve]
    rw [if_neg hl]
    unfold observeCmd
    cases hg : j.cmds.get? i with
    | none => rfl
    | some c => rfl

/-- C4 witness: the amended statement evaluated on a concrete
two-command job, for the last command (status mirrored) and a non-last
command (status unchanged). -/
theorem c4_wait_status_mirroring_witness :
    (syncObserve
        ⟨[⟨5, WStatus.initial⟩, ⟨6, WStatus.initial⟩], 0, 2,
          WStatus.initial⟩ 0 (WStatus.exited 3)).wait_status =
      WStatus.exited 3 ∧
    (handlerObserve
        ⟨[⟨5, WStatus.initial⟩, ⟨6, WStatus.initial⟩], 0, 2,
          WStatus.initial⟩ 1 (WStatus.exited 3)).wait_status =
      WStatus.exited 3 ∧
    (handlerObserve
        ⟨[⟨5, WStatus.initial⟩, ⟨6, WStatus.initial⟩], 0, 2,
          WStatus.initial⟩ 0 (WStatus.exited 3)).wait_status =
      (⟨[⟨5, WStatus.initial⟩, ⟨6, WStatus.initial⟩], 0, 2,
          WStatus.initial⟩ : JobSt).wait_status :=
  ⟨(c4_wait_status_mirroring
      ⟨[⟨5, WStatus.initial⟩, ⟨6, WStatus.initial⟩], 0, 2,
        WStatus.initial⟩ 0 (WStatus.exited 3)).1,
   (c4_wait_status_mirroring
      ⟨[⟨5, WStatus.initial⟩, ⟨6, WStatus.initial⟩], 0, 2,
        WStatus.initial⟩ 1 (WStatus.exited 3)).2.1 (by decide),
   (c4_wait_status_mirroring
      ⟨[⟨5, WStatus.initial⟩, ⟨6, WStatus.initial⟩], 0, 2,
        WStatus.initial⟩ 0 (WStatus.exited 3)).2.2 (by decide)⟩

/-- The job fields consulted by the Job Table's refresh logic
(xd_jobs.c: job_id, unreaped_count, stopped_count, last_active). -/
structure RJob where
  job_id : Int
  unreaped_count : Int
  stopped_count : Int
  last_active : Nat
  deriving DecidableEq, Repr

/-- xd_job_is_stopped (xd_job.c:177-182): all live children stopped. -/
def xd_job_is_stopped (j : RJob) : Bool :=
  decide (0 < j.stopped_count) && decide (j.stopped_count = j.unreaped_count)

/-- xd_job_is_alive (xd_job.c:184-189): some child not yet reaped. -/
def xd_job_is_alive (j : RJob) : Bool :=
  decide (0 < j.unreaped_count)

/-- xd_job_is_newer (xd_jobs.c:128-146): recency order used to pick the
current and previous jobs; NULL compares as oldest. -/
def xd_job_is_newer (j1 j2 : Option RJob) : Bool :=
  match j1 with
  | none => false
  | some a =>
    match j2 with
    | none => true
    | some b =>
      if xd_job_is_stopped a ≠ xd_job_is_stopped b then xd_job_is_stopped a
      else if a.last_active ≠ b.last_active then
        decide (a.last_active > b.last_active)
      else decide (a.job_id > b.job_id)

/-- The scan of xd_update_current_job (xd_jobs.c:200-213) over the job
list, carrying the two candidate markers as (index, job) pairs; the C
pointer comparison `job != first` becomes an index comparison. -/
def ucLoop :
    Nat → List RJob → Option (Nat × RJob) → Option (Nat × RJob) →
    Option (Nat × RJob) × Option (Nat × RJob)
  | _, [], first, second => (first, second)
  | off, jb :: rest, first, second =>
    if xd_job_is_alive jb = false then ucLoop (off + 1) rest first second
    else if xd_job_is_newer (some jb) (Option.map Prod.snd first) = true then
      ucLoop (off + 1) rest (some (off, jb)) first
    else if (match first with
        | none => true
        | some f => decide (off ≠ f.1)) = true ∧
        xd_job_is_newer (some jb) (Option.map Prod.snd second) = true then
      ucLoop (off + 1) rest first (some (off, jb))
    else ucLoop (off + 1) rest first second

/-- xd_update_current_job (xd_jobs.c:193-216): recompute the current
(`+`) and previous (`-`) markers from the alive jobs of the table. -/
def xd_update_current_job (l : List RJob) :
    Option (Nat × RJob) × Option (Nat × RJob) :=
  ucLoop 0 l none none

/-- xd_remove_finished (xd_jobs.c:173-188): drop every job whose
unreaped_count is 0. -/
def xd_remove_finished (l : List RJob) : List RJob :=
  l.filter (fun j => decide (j.unreaped_count ≠ 0))

/-- xd_jobs_refresh (xd_jobs.c:305-314): notify (which does not change
the table), remove finished jobs, then recompute the markers. Returns
the new table together with the (current, previous) markers. -/
def xd_jobs_refresh (l : List RJob) :
    List RJob × (Option (Nat × RJob) × Option (Nat × RJob)) :=
  let l2 := xd_remove_finished l
  (l2, xd_update_current_job l2)

/-- Dropping n elements and finding a cons means element n is its head. -/
lemma get?_eq_of_drop_eq_cons {α : Type} :
    ∀ (l : List α) (n : Nat) (a : α) (t : List α),
      l.drop n = a :: t → l.get? n = some a := by
  intro l
  induction l with
  | nil =>
    intro n a t h
    simp at h
  | cons x xs ih =>
    intro n a t h
    cases n with
    | zero =>
      simp at h
      simp [h.1]
    | succ m =>
      simp at h
      exact ih m a t h

/-- The marker-scan invariant: starting from markers that point at alive
entries of l below the scan position (or are absent, with an absent
first forcing an absent second and distinct indices when both are
present), the scan returns markers that point at alive entries of l and
are distinct when both present. -/
lemma ucLoop_inv (l : List RJob) :
    ∀ (rest : List RJob) (off : Nat)
      (first second : Option (Nat × RJob)),
      rest = l.drop off →
      (∀ a, first = some a → a.1 < off ∧ l.get? a.1 = some a.2 ∧
        xd_job_is_alive a.2 = true) →
      (∀ b, second = some b → b.1 < off ∧ l.get? b.1 = some b.2 ∧
        xd_job_is_alive b.2 = true) →
      (first = none → second = none) →
      (∀ a b, first = some a → second = some b → a.1 ≠ b.1) →
      (∀ a, (ucLoop off rest first second).1 = some a →
        l.get? a.1 = some a.2 ∧ xd_job_is_alive a.2 = true) ∧
      (∀ b, (ucLoop off rest first second).2 = some b →
        l.get? b.1 = some b.2 ∧ xd_job_is_alive b.2 = true) ∧
      (∀ a b, (ucLoop off rest first second).1 = some a →
        (ucLoop off rest first second).2 = some b → a.1 ≠ b.1) := by
  intro rest
  induction rest with
  | nil =>
    intro off first second hdrop hF hS hN hD
    refine ⟨?_, ?_, ?_⟩
    · intro a ha
      exact ⟨(hF a ha).2.1, (hF a ha).2.2⟩
    · intro b hb
      exact ⟨(hS b hb).2.1, (hS b hb).2.2⟩
    · intro a b ha hb
      exact hD a b ha hb
  | cons jb rest2 ih =>
    intro off first second hdrop hF hS hN hD
    have hget : l.get? off = some jb :=
      get?_eq_of_drop_eq_cons l off jb rest2 hdrop.symm
    have hdrop2 : rest2 = l.drop (off + 1) := by
      have := List.tail_drop l off
      rw [← hdrop] at this
      simpa using this
    simp only [ucLoop]
    split_ifs with h1 h2 h3
    · exact ih (off + 1) first second hdrop2
        (fun a ha => ⟨Nat.lt_succ_of_lt (hF a ha).1, (hF a ha).2⟩)
        (fun b hb => ⟨Nat.lt_succ_of_lt (hS b hb).1, (hS b hb).2⟩)
        hN hD
    · have halive : xd_job_is_alive jb = true := by
        cases hcase : xd_job_is_alive jb
        · exact absurd hcase h1
        · rfl
      refine ih (off + 1) (some (off, jb)) first hdrop2 ?_ ?_ ?_ ?_
      · intro a ha
        obtain rfl : a = (off, jb) := by
          injection ha with ha2
          exact ha2.symm
        exact ⟨Nat.lt_succ_self off, hget, halive⟩
      · intro b hb
        exact ⟨Nat.lt_succ_of_lt (hF b hb).1, (hF b hb).2⟩
      · intro hnone
        exact absurd hnone (by simp)
      · intro a b ha hb
        obtain rfl : a = (off, jb) := by
          injection ha with ha2
          exact ha2.symm
        have := (hF b hb).1
        omega
    · have halive : xd_job_is_alive jb = true := by
        cases hcase : xd_job_is_alive jb
        · exact absurd hcase h1
        · rfl
      obtain ⟨f, hf⟩ : ∃ f, first = some f := by
        cases hfc : first with
        | none =>
          rw [hfc] at h2
          simp [xd_job_is_newer] at h2
        | some f => exact ⟨f, rfl⟩
      refine ih (off + 1) first (some (off, jb)) hdrop2 ?_ ?_ ?_ ?_
      · intro a ha
        exact ⟨Nat.lt_succ_of_lt (hF a ha).1, (hF a ha).2⟩
      · intro b hb
        obtain rfl : b = (off, jb) := by
          injection hb with hb2
          exact hb2.symm
        exact ⟨Nat.lt_succ_self off, hget, halive⟩
      · intro hnone
        rw [hf] at hnone
        exact absurd hnone (by simp)
      · intro a b ha hb
        obtain rfl : b = (off, jb) := by
          injection hb with hb2
          exact hb2.symm
        have := (hF a ha).1
        omega
    · exact ih (off + 1) first second hdrop2
        (fun a ha => ⟨Nat.lt_succ_of_lt (hF a ha).1, (hF a ha).2⟩)
        (fun b hb => ⟨Nat.lt_succ_of_lt (hS b hb).1, (hS b hb).2⟩)
        hN hD

/-- C6: after refresh, no job with unreaped_count = 0 remains in the
table, the current and previous markers are each absent or designate an
alive job present in the table (at their recorded position), and the
two markers are distinct whenever both are present. -/
theorem c6_refresh_invariant (l : List RJob) :
    (∀ jb ∈ (xd_jobs_refresh l).1, jb.unreaped_count ≠ 0) ∧
    (∀ a, (xd_jobs_refresh l).2.1 = some a →
      (xd_jobs_refresh l).1.get? a.1 = some a.2 ∧
        xd_job_is_alive a.2 = true) ∧
    (∀ b, (xd_jobs_refresh l).2.2 = some b →
      (xd_jobs_refresh l).1.get? b.1 = some b.2 ∧
        xd_job_is_alive b.2 = true) ∧
    (∀ a b, (xd_jobs_refresh l).2.1 = some a →
      (xd_jobs_refresh l).2.2 = some b → a.1 ≠ b.1) := by
  have hmain := ucLoop_inv (xd_remove_finished l) (xd_remove_finished l) 0
    none none (by simp) (by intro a ha; simp at ha)
    (by intro b hb; simp at hb) (by intro h; rfl)
    (by intro a b ha hb; simp at ha)
  refine ⟨?_, hmain.1, hmain.2.1, hmain.2.2⟩
  intro jb hmem
  have := List.mem_filter.mp hmem
  simpa using this.2

/-- C6 witness: refresh evaluated on a table with a running job, a
finished job and a stopped job — the finished job is gone, current is
the stopped job, previous the running one, and they are distinct. -/
theorem c6_refresh_invariant_witness :
    (xd_jobs_refresh
        [⟨1, 1, 0, 5⟩, ⟨2, 0, 0, 3⟩, ⟨3, 2, 2, 4⟩]).1.get? 1 =
      some ⟨3, 2, 2, 4⟩ ∧
    xd_job_is_alive (⟨3, 2, 2, 4⟩ : RJob) = true ∧
    (1 : Nat) ≠ 0 := by
  have hc := (c6_refresh_invariant
    [⟨1, 1, 0, 5⟩, ⟨2, 0, 0, 3⟩, ⟨3, 2, 2, 4⟩]).2.1
    (1, ⟨3, 2, 2, 4⟩) (by decide)
  have hd := (c6_refresh_invariant
    [⟨1, 1, 0, 5⟩, ⟨2, 0, 0, 3⟩, ⟨3, 2, 2, 4⟩]).2.2.2
    (1, ⟨3, 2, 2, 4⟩) (0, ⟨1, 1, 0, 5⟩) (by decide) (by decide)
  exact ⟨hc.1, hc.2, hd⟩

/-- The job data the kill builtin needs: the process group id. -/
structure KJob where
  pgid : Int
  deriving DecidableEq, Repr

/-- Environment of the kill builtin's operand loop
(xd_kill, xd_builtins.c:283-333): job-table lookups
(xd_jobs_get_current/previous/with_id), xd_utils_strtol, interactivity,
and the outcomes of the kill(2) system call and of xd_jobs_kill. -/
structure KillEnv where
  cur : Option KJob
  prev : Option KJob
  byId : Int → Option KJob
  strtol : List Char → Option Int
  interactive : Bool
  killSys : Int → Int → Bool
  jobsKillOk : KJob → Int → Bool

/-- The operand loop of the kill builtin (xd_builtins.c:284-331),
returning the final success_count. A '%'-operand resolves through the
job table (a failed xd_utils_strtol leaves job_id at -1, line 296-298);
a non-existent jobspec or unparsable pid prints an error and continues.
For a resolved jobspec in non-interactive mode a successful
xd_jobs_kill increments success_count inside the branch (line 324) and
then again after it (line 330); every other successful delivery
increments it once. -/
def xd_kill_loop (env : KillEnv) (sig : Int) :
    List (List Char) → Int → Int
  | [], acc => acc
  | op :: rest, acc =>
    if getC op 0 = '%' then
      let job :=
        if op = ['%', '%'] ∨ op = ['%', '+'] then env.cur
        else if op = ['%', '-'] then env.prev
        else env.byId ((env.strtol (op.drop 1)).getD (-1))
      match job with
      | none => xd_kill_loop env sig rest acc
      | some jb =>
        let pid := -jb.pgid
        if env.interactive = false then
          if env.jobsKillOk jb sig then
            xd_kill_loop env sig rest (acc + 1 + 1)
          else xd_kill_loop env sig rest acc
        else
          if env.killSys pid sig then xd_kill_loop env sig rest (acc + 1)
          else xd_kill_loop env sig rest acc
    else
      match env.strtol op with
      | none => xd_kill_loop env sig rest acc
      | some pid =>
        if env.killSys pid sig then xd_kill_loop env sig rest (acc + 1)
        else xd_kill_loop env sig rest acc

/-- The exit status of the kill builtin over its operands
(xd_builtins.c:333): success exactly when success_count equals the
number of operands. -/
def xd_kill_operands (env : KillEnv) (sig : Int)
    (ops : List (List Char)) : Int :=
  if xd_kill_loop env sig ops 0 = (ops.length : Int) then 0 else 1

/-- C7: the double increment of success_count for a non-interactive
jobspec delivery (xd_builtins.c:324 and 330) breaks the exit status in
both directions. With one existing jobspec operand %1 whose signal is
delivered successfully, kill returns EXIT_FAILURE (success_count 2 ≠ 1
operand); with the same successful %1 plus a non-existent jobspec %2,
it returns EXIT_SUCCESS (success_count 2 = 2 operands) although an
operand failed. This contradicts the builtin's own help text, "Returns
success unless invalid option is given or error occurs". -/
theorem c7_kill_success_count_bug :
    xd_kill_operands
        ⟨none, none, (fun i => if i = 1 then some ⟨10⟩ else none),
         (fun l => if l = ['1'] then some 1 else none), false,
         (fun _ _ => true), (fun _ _ => true)⟩
        15 [['%', '1']] = 1 ∧
    xd_kill_operands
        ⟨none, none, (fun i => if i = 1 then some ⟨10⟩ else none),
         (fun l => if l = ['1'] then some 1 else none), false,
         (fun _ _ => true), (fun _ _ => true)⟩
        15 [['%', '1'], ['%', '2']] = 0 := by
  constructor
  · decide
  · decide

/-- The SIGCHLD signal number on Linux. -/
def sigchldNum : Nat := 17

/-- The state the SIGCHLD blocking pair operates on: the nesting
counter xd_sigchld_block_count (xd_jobs.c:57) and the process signal
mask, modelled as the set of blocked signal numbers. -/
structure SigSt where
  count : Int
  blocked : Nat → Bool

/-- xd_jobs_sigchld_block (xd_jobs.c:425-433): block SIGCHLD in the
process mask only on the 0 to 1 transition of the counter. -/
def xd_jobs_sigchld_block (s : SigSt) : SigSt :=
  let s2 :=
    if s.count = 0 then
      { s with blocked := fun n => if n = sigchldNum then true
          else s.blocked n }
    else s
  { s2 with count := s2.count + 1 }

/-- xd_jobs_sigchld_unblock (xd_jobs.c:435-446): decrement only a
positive counter and unblock SIGCHLD only on the 1 to 0 transition. -/
def xd_jobs_sigchld_unblock (s : SigSt) : SigSt :=
  if 0 < s.count then
    let c := s.count - 1
    if c = 0 then
      { count := c,
        blocked := fun n => if n = sigchldNum then false
          else s.blocked n }
    else { s with count := c }
  else s

/-- A block or unblock call. -/
inductive SigOp
  | block
  | unblock

/-- Apply one call. -/
def applySigOp (s : SigSt) : SigOp → SigSt
  | SigOp.block => xd_jobs_sigchld_block s
  | SigOp.unblock => xd_jobs_sigchld_unblock s

/-- Apply a sequence of calls, first element first. -/
def applySigOps (s : SigSt) : List SigOp → SigSt
  | [] => s
  | op :: rest => applySigOps (applySigOp s op) rest

/-- Sequences of n matched block/unblock pairs in any nesting: the Dyck
words over block/unblock. -/
inductive BalancedOps : List SigOp → Prop
  | nil : BalancedOps []
  | wrap {l : List SigOp} : BalancedOps l →
      BalancedOps (SigOp.block :: l ++ [SigOp.unblock])
  | append {l1 l2 : List SigOp} : BalancedOps l1 → BalancedOps l2 →
      BalancedOps (l1 ++ l2)

/-- The synchronisation invariant the shell maintains: the counter is
non-negative and SIGCHLD is unblocked whenever the counter is zero.
It holds at startup (counter 0, SIGCHLD not blocked) and no other code
in the shell manipulates the SIGCHLD mask bit. -/
def SigSync (s : SigSt) : Prop :=
  0 ≤ s.count ∧ (s.count = 0 → s.blocked sigchldNum = false)


/-- block preserves the synchronisation invariant and makes the counter
positive. -/
lemma sigchld_block_sync {s : SigSt} (hs : SigSync s) :
    SigSync (xd_jobs_sigchld_block s) ∧
      0 < (xd_jobs_sigchld_block s).count := by
  obtain ⟨cnt, bl⟩ := s
  obtain ⟨h0, h1⟩ := hs
  have h0c : (0 : Int) ≤ cnt := h0
  by_cases hc : cnt = 0
  · subst hc
    have hb : xd_jobs_sigchld_block ⟨0, bl⟩ =
        ⟨1, fun n => if n = sigchldNum then true else bl n⟩ := by
      simp [xd_jobs_sigchld_block]
    rw [hb]
    refine ⟨⟨?_, ?_⟩, ?_⟩
    · show (0 : Int) ≤ 1
      norm_num
    · intro h
      exact absurd (show (1 : Int) = 0 from h) (by norm_num)
    · show (0 : Int) < 1
      norm_num
  · have hb : xd_jobs_sigchld_block ⟨cnt, bl⟩ = ⟨cnt + 1, bl⟩ := by
      simp only [xd_jobs_sigchld_block]
      rw [if_neg hc]
    rw [hb]
    refine ⟨⟨?_, ?_⟩, ?_⟩
    · show (0 : Int) ≤ cnt + 1
      omega
    · intro h
      exact absurd (show cnt + 1 = 0 from h) (by omega)
    · show (0 : Int) < cnt + 1
      omega

/-- unblock exactly undoes block on synchronised states. -/
lemma sigchld_unblock_block {s : SigSt} (hs : SigSync s) :
    xd_jobs_sigchld_unblock (xd_jobs_sigchld_block s) = s := by
  obtain ⟨cnt, bl⟩ := s
  obtain ⟨h0, h1⟩ := hs
  have h0c : (0 : Int) ≤ cnt := h0
  by_cases hc : cnt = 0
  · subst hc
    have hbl : bl sigchldNum = false := h1 rfl
    have hb : xd_jobs_sigchld_block ⟨0, bl⟩ =
        ⟨1, fun n => if n = sigchldNum then true else bl n⟩ := by
      simp [xd_jobs_sigchld_block]
    rw [hb]
    have hu : xd_jobs_sigchld_unblock
        ⟨1, fun n => if n = sigchldNum then true else bl n⟩ =
        ⟨0, fun n => if n = sigchldNum then false
          else (if n = sigchldNum then true else bl n)⟩ := by
      simp only [xd_jobs_sigchld_unblock]
      rw [if_pos (show (0 : Int) < 1 by norm_num)]
      rw [if_pos (show (1 : Int) - 1 = 0 by norm_num)]
      norm_num
    rw [hu]
    have hfun : (fun n => if n = sigchldNum then false
        else (if n = sigchldNum then true else bl n)) = bl := by
      funext n
      by_cases hn : n = sigchldNum
      · subst hn
        simp [hbl]
      · simp [hn]
    rw [hfun]
  · have hb : xd_jobs_sigchld_block ⟨cnt, bl⟩ = ⟨cnt + 1, bl⟩ := by
      simp only [xd_jobs_sigchld_block]
      rw [if_neg hc]
    rw [hb]
    have hu : xd_jobs_sigchld_unblock ⟨cnt + 1, bl⟩ =
        ⟨cnt + 1 - 1, bl⟩ := by
      simp only [xd_jobs_sigchld_unblock]
      rw [if_pos (show (0 : Int) < cnt + 1 by omega)]
      rw [if_neg (show ¬ (cnt + 1 - 1 = 0) by omega)]
    rw [hu]
    have hcnt : cnt + 1 - 1 = cnt := by omega
    rw [hcnt]

/-- applySigOps distributes over list append. -/
lemma applySigOps_append (l1 l2 : List SigOp) :
    ∀ t : SigSt, applySigOps t (l1 ++ l2) =
      applySigOps (applySigOps t l1) l2 := by
  induction l1 with
  | nil => intro t; rfl
  | cons o r ih => intro t; exact ih (applySigOp t o)

/-- A balanced sequence of calls is the identity on synchronised
states. -/
lemma balanced_noop {ops : List SigOp} (hb : BalancedOps ops) :
    ∀ s : SigSt, SigSync s → applySigOps s ops = s := by
  induction hb with
  | nil => intro s hs; rfl
  | @wrap l hl ih =>
    intro s hs
    have hbs := sigchld_block_sync hs
    have h1 : applySigOps s (SigOp.block :: l ++ [SigOp.unblock]) =
        applySigOps (applySigOps (xd_jobs_sigchld_block s) l)
          [SigOp.unblock] := by
      rw [show applySigOps s (SigOp.block :: l ++ [SigOp.unblock]) =
          applySigOps (xd_jobs_sigchld_block s) (l ++ [SigOp.unblock])
          from rfl]
      rw [applySigOps_append]
    rw [h1, ih _ hbs.1]
    exact sigchld_unblock_block hs
  | @append l1 l2 hl1 hl2 ih1 ih2 =>
    intro s hs
    rw [applySigOps_append, ih1 s hs, ih2 s hs]

/-- C8: on synchronised states (counter 0 implies SIGCHLD unblocked —
the situation the shell is always in, since only these two functions
touch the SIGCHLD mask bit), any number of matched block/unblock pairs
in any nesting leaves the whole state, in particular the process signal
mask, unchanged; block touches the mask only at the 0 to 1 counter
transition, unblock only at the 1 to 0 transition, and unblock on a
non-positive counter does nothing at all. -/
theorem c8_sigchld_block_unblock :
    (∀ (s : SigSt) (ops : List SigOp), SigSync s → BalancedOps ops →
      applySigOps s ops = s) ∧
    (∀ s : SigSt, s.count ≠ 0 →
      (xd_jobs_sigchld_block s).blocked = s.blocked) ∧
    (∀ s : SigSt, s.count ≠ 1 →
      (xd_jobs_sigchld_unblock s).blocked = s.blocked) ∧
    (∀ s : SigSt, s.count ≤ 0 → xd_jobs_sigchld_unblock s = s) := by
  refine ⟨?_, ?_, ?_, ?_⟩
  · intro s ops hs hb
    exact balanced_noop hb s hs
  · intro s hc
    have hb : xd_jobs_sigchld_block s = { s with count := s.count + 1 } := by
      simp only [xd_jobs_sigchld_block]
      rw [if_neg hc]
    rw [hb]
  · intro s hc
    by_cases hpos : 0 < s.count
    · have hnz : ¬ (s.count - 1 = 0) := by omega
      have hu : xd_jobs_sigchld_unblock s =
          { s with count := s.count - 1 } := by
        simp only [xd_jobs_sigchld_unblock]
        rw [if_pos hpos]
        rw [if_neg hnz]
      rw [hu]
    · have hu : xd_jobs_sigchld_unblock s = s := by
        simp only [xd_jobs_sigchld_unblock]
        rw [if_neg hpos]
      rw [hu]
  · intro s hc
    have hpos : ¬ 0 < s.count := by omega
    simp only [xd_jobs_sigchld_unblock]
    rw [if_neg hpos]

/-- C8 witness: one block/unblock pair applied to the startup state
(counter 0, empty mask) is the identity; the single-call conjuncts
evaluated at counter 2 and at counter 0. -/
theorem c8_sigchld_block_unblock_witness :
    (SigSync ⟨0, fun _ => false⟩ ∧
      BalancedOps [SigOp.block, SigOp.unblock] ∧
      applySigOps ⟨0, fun _ => false⟩ [SigOp.block, SigOp.unblock] =
        ⟨0, fun _ => false⟩) ∧
    (xd_jobs_sigchld_block ⟨2, fun _ => false⟩).blocked =
      (⟨2, fun _ => false⟩ : SigSt).blocked ∧
    (xd_jobs_sigchld_unblock ⟨2, fun _ => false⟩).blocked =
      (⟨2, fun _ => false⟩ : SigSt).blocked ∧
    xd_jobs_sigchld_unblock ⟨0, fun _ => false⟩ =
      ⟨0, fun _ => false⟩ := by
  have hsync : SigSync ⟨0, fun _ => false⟩ := ⟨le_refl 0, fun _ => rfl⟩
  have hbal : BalancedOps [SigOp.block, SigOp.unblock] := by
    have := BalancedOps.wrap BalancedOps.nil
    simpa using this
  refine ⟨⟨hsync, hbal, ?_⟩, ?_, ?_, ?_⟩
  · exact c8_sigchld_block_unblock.1 ⟨0, fun _ => false⟩
      [SigOp.block, SigOp.unblock] hsync hbal
  · exact c8_sigchld_block_unblock.2.1 ⟨2, fun _ => false⟩
      (show (2 : Int) ≠ 0 by norm_num)
  · exact c8_sigchld_block_unblock.2.2.1 ⟨2, fun _ => false⟩
      (show (2 : Int) ≠ 1 by norm_num)
  · exact c8_sigchld_block_unblock.2.2.2 ⟨0, fun _ => false⟩
      (show (0 : Int) ≤ 0 by norm_num)

/-- The sequence of pids xd_jobs_kill (xd_jobs.c:327-342) passes to the
kill(2) system call over a job's command array: commands whose recorded
pid is 0 (failure before fork) are skipped, and the iteration stops
after the first failing call (the function returns -1). killOk gives
each call's outcome. -/
def xd_jobs_kill_calls (killOk : Int → Bool) : List MCmd → List Int
  | [] => []
  | c :: rest =>
    if c.pid = 0 then xd_jobs_kill_calls killOk rest
    else if killOk c.pid then c.pid :: xd_jobs_kill_calls killOk rest
    else [c.pid]

/-- One pass outcome of a waitpid call as the wait loop of xd_jobs_wait
distinguishes them (xd_jobs.c:358-364): a positive return, a failure
with EINTR (retry the same command), or any other non-positive return
(move on). -/
inductive WaitpidRes
  | reported
  | eintr
  | noChild

/-- The sequence of pids the command scan of xd_jobs_wait
(xd_jobs.c:351-364) passes to waitpid: commands with pid 0 are skipped
(line 354-356); on EINTR the same command is retried (i-- then the
for's i++, line 360-362). res gives the outcome of the k-th call; fuel
bounds the retries and is irrelevant to which pids can appear. -/
def xd_jobs_wait_calls (res : Nat → WaitpidRes) (pids : List Int) :
    Nat → Nat → Nat → List Int
  | _, _, 0 => []
  | i, k, fuel + 1 =>
    match pids.get? i with
    | none => []
    | some pid =>
      if pid = 0 then xd_jobs_wait_calls res pids (i + 1) k fuel
      else
        pid ::
          (match res k with
           | WaitpidRes.eintr => xd_jobs_wait_calls res pids i (k + 1) fuel
           | _ => xd_jobs_wait_calls res pids (i + 1) (k + 1) fuel)

/-- C10: neither the Job Table's kill nor its synchronous wait ever
targets a not-yet-forked command: 0 is never among the pids passed to
the kill system call, and never among the pids passed to waitpid, for
any job contents, call outcomes and fuel. -/
theorem c10_kill_wait_skip_pid_zero :
    (∀ (killOk : Int → Bool) (cmds : List MCmd),
      (0 : Int) ∉ xd_jobs_kill_calls killOk cmds) ∧
    (∀ (res : Nat → WaitpidRes) (pids : List Int) (i k fuel : Nat),
      (0 : Int) ∉ xd_jobs_wait_calls res pids i k fuel) := by
  constructor
  · intro killOk cmds
    induction cmds with
    | nil => simp [xd_jobs_kill_calls]
    | cons c rest ih =>
      by_cases hp : c.pid = 0
      · simpa [xd_jobs_kill_calls, hp] using ih
      · by_cases hk : killOk c.pid = true
        · simp [xd_jobs_kill_calls, hp, hk]
          exact ⟨fun h => hp h.symm, ih⟩
        · simp [xd_jobs_kill_calls, hp, hk]
          exact fun h => hp h.symm
  · intro res pids i k fuel
    induction fuel generalizing i k with
    | zero => simp [xd_jobs_wait_calls]
    | succ f ih =>
      simp only [xd_jobs_wait_calls]
      cases hg : pids.get? i with
      | none => simp
      | some pid =>
        by_cases hp : pid = 0
        · simpa [hp] using ih (i + 1) k
        · cases hres : res k <;>
            · simp [hp]
              refine ⟨fun h => hp h.symm, ?_⟩
              first
                | exact ih i (k + 1)
                | exact ih (i + 1) (k + 1)
